import Mathlib

/-!
Verification of the msg.reader compound-file (.msg) decoder.

This file shallowly embeds the container-decoding and property-extraction
logic of src/MsgReader.js and proves or refutes the frozen claims about it.
Machine integers are modelled as Nat/Int with explicit two's-complement
conversions where JavaScript performs 32-bit coercions; the byte cursor
(DataStream.js, an external collaborator that is not part of the core) is
modelled from its contract as a total byte-lookup function, and fallible
code returns Option/Except.
-/

namespace MsgModel

/-! ## JavaScript arithmetic semantics -/

/-- Two's-complement reinterpretation of a bit pattern as a signed 32-bit
value: JavaScript bitwise operators return their result in this range. -/
def toInt32 (n : Int) : Int :=
  let p := n.emod 4294967296
  if p < 2147483648 then p else p - 4294967296

/-- Nonnegative 32-bit pattern of an integer, as used by JavaScript ToUint32. -/
def pat32 (z : Int) : Nat := (z.emod 4294967296).toNat

/-- Fuel-structural bitwise or on Nat (structural so the kernel can evaluate
it; fuel 70 covers all 64-bit values that occur in the decoder). -/
def bitOrF : Nat → Nat → Nat → Nat
  | 0, _, b => b
  | f+1, a, b =>
    if a = 0 then b else if b = 0 then a
    else 2 * bitOrF f (a / 2) (b / 2) + (if a % 2 = 1 ∨ b % 2 = 1 then 1 else 0)

/-- Fuel-structural bitwise and on Nat. -/
def bitAndF : Nat → Nat → Nat → Nat
  | 0, _, _ => 0
  | f+1, a, b =>
    if a = 0 ∨ b = 0 then 0
    else 2 * bitAndF f (a / 2) (b / 2) + (if a % 2 = 1 ∧ b % 2 = 1 then 1 else 0)

/-- Fuel-structural bitwise difference (a AND NOT b) on Nat. -/
def bitLdiffF : Nat → Nat → Nat → Nat
  | 0, a, _ => a
  | f+1, a, b =>
    if a = 0 then 0
    else 2 * bitLdiffF f (a / 2) (b / 2) + (if a % 2 = 1 ∧ b % 2 = 0 then 1 else 0)

/-- JavaScript BigInt bitwise or: infinite two's complement, by sign cases
(the same case analysis as Mathlib's Int.lor, with kernel-evaluable bit ops). -/
def jsBigOr (a b : Int) : Int :=
  if a ≥ 0 then
    if b ≥ 0 then (bitOrF 70 a.toNat b.toNat : Nat)
    else -(((bitLdiffF 70 (-b - 1).toNat a.toNat) : Nat) + 1)
  else
    if b ≥ 0 then -(((bitLdiffF 70 (-a - 1).toNat b.toNat) : Nat) + 1)
    else -(((bitAndF 70 (-a - 1).toNat (-b - 1).toNat) : Nat) + 1)

/-- JavaScript Number bitwise or: both operands are coerced to 32-bit
patterns, combined, and reinterpreted as a signed 32-bit value. -/
def jsOr32 (a b : Int) : Int := toInt32 (bitOrF 40 (pat32 a) (pat32 b))

/-- JavaScript truncating division (BigInt division rounds toward zero). -/
def jsQuot (a b : Int) : Int := Int.tdiv a b

/-- JavaScript remainder (sign of the dividend). -/
def jsRem (a b : Int) : Int := a - b * Int.tdiv a b

/-! ## JavaScript string helpers

String values are modelled as Lean strings; the operations used by the
decoder (substring, toLowerCase, indexOf-from-zero, containment) are defined
over the underlying character list so that they are kernel-evaluable. -/

/-- Lower-case an ASCII character, as String.prototype.toLowerCase does on
the ASCII names that occur in a .msg directory. -/
def charLow (c : Char) : Char :=
  if 'A' ≤ c ∧ c ≤ 'Z' then Char.ofNat (c.toNat + 32) else c

/-- JavaScript s.toLowerCase() on ASCII strings. -/
def jsToLower (s : String) : String := String.mk (s.data.map charLow)

/-- JavaScript s.substring(a, b) (clamped like the JS builtin for a ≤ b). -/
def jsSubstring (s : String) (a b : Nat) : String :=
  String.mk ((s.data.drop a).take (b - a))

/-- JavaScript s.substring(a) to the end of the string. -/
def jsSubstringFrom (s : String) (a : Nat) : String := String.mk (s.data.drop a)

/-- Character-list version of name.indexOf(pat) === 0. -/
def startsWithL : List Char → List Char → Bool
  | _, [] => true
  | [], _ :: _ => false
  | a :: as, b :: bs => a = b && startsWithL as bs

/-- Character-list version of name.indexOf(pat) !== -1. -/
def hasInfixL : List Char → List Char → Bool
  | [], pat => pat.isEmpty
  | s :: rest, pat => startsWithL (s :: rest) pat || hasInfixL rest pat

/-! ## Byte cursor

Modelled from the spec: the Byte Cursor contract of §6 (DataStream.js is an
external collaborator, not part of the core under src/): a seekable reader
of little-endian scalars and arrays over an immutable in-memory buffer.  The
buffer is modelled as a total function from absolute byte offset to byte
value, and each read primitive is a pure function of the offset. -/
def ByteFile : Type := Int → Nat

/-- Read one byte at an absolute offset. -/
def readByte (f : ByteFile) (off : Int) : Nat := f off

/-- Read a signed little-endian 32-bit integer at an absolute offset. -/
def readInt32At (f : ByteFile) (off : Int) : Int :=
  toInt32 (f off + 256 * f (off + 1) + 65536 * f (off + 2) + 16777216 * f (off + 3))

/-- Read len raw bytes starting at an absolute offset. -/
def readBytesAt (f : ByteFile) (off : Int) (len : Nat) : List Nat :=
  (List.range len).map (fun (i : Nat) => f (off + (i : Int)))

/-! ## Constants (MsgReader.CONST.MSG) -/

def UNUSED_BLOCK : Int := -1
def END_OF_CHAIN : Int := -2
def S_BIG_BLOCK_SIZE : Int := 512
def L_BIG_BLOCK_SIZE : Int := 4096
def SMALL_BLOCK_SIZE : Int := 64
def BIG_BLOCK_MIN_DOC_SIZE : Int := 4096
def NO_INDEX : Int := -1
def TYPE_DIRECTORY : Int := 1
def TYPE_DOCUMENT : Int := 2
def TYPE_ROOT : Int := 5

/-! ## Parsed header state and directory entries -/

/-- The header-derived fields of msgData together with the assembled
allocation tables (batData after xbat extension, and sbatData). -/
structure MsgData where
  bigBlockSize : Int
  bigBlockLength : Int
  batData : List Int
  sbatData : List Int

/-- A directory entry as produced by convertProperty: flat index, 1-byte
type tag, UTF-16 name, sibling/child pointers, data start sector and
declared byte size. -/
structure PropEntry where
  index : Nat
  type : Int
  name : String
  previousProperty : Int
  nextProperty : Int
  childProperty : Int
  startBlock : Int
  sizeBlock : Int
deriving DecidableEq

/-- JavaScript array indexing into the flat property list: a negative or
out-of-range index, and a placeholder slot, both read as absent. -/
def propAt (props : List (Option PropEntry)) (i : Int) : Option PropEntry :=
  if 0 ≤ i then (props.getD i.toNat none) else none

/-! ## FAT chain following (getBlockOffsetAt / getNextBlock) -/

/-- Sector index to absolute byte offset: sector 0 follows the header block. -/
def getBlockOffsetAt (msg : MsgData) (offset : Int) : Int :=
  (offset + 1) * msg.bigBlockSize

/-- Next-sector lookup through an allocation table: locate the table sector
holding this index and read its 32-bit entry.  An out-of-range lookup into
the table-sector list is modelled as the unused sentinel; every theorem
below exercises only in-range lookups. -/
def getNextBlockInner (f : ByteFile) (msg : MsgData) (offset : Int)
    (blockOffsetData : List Int) : Int :=
  let currentBlock := Int.fdiv offset msg.bigBlockLength
  let currentBlockIndex := jsRem offset msg.bigBlockLength
  let startBlockOffset :=
    if 0 ≤ currentBlock then blockOffsetData.getD currentBlock.toNat UNUSED_BLOCK
    else UNUSED_BLOCK
  readInt32At f (getBlockOffsetAt msg startBlockOffset + 4 * currentBlockIndex)

/-- Next sector in the regular chain. -/
def getNextBlock (f : ByteFile) (msg : MsgData) (offset : Int) : Int :=
  getNextBlockInner f msg offset msg.batData

/-- Next mini-sector in the small chain. -/
def getNextBlockSmall (f : ByteFile) (msg : MsgData) (offset : Int) : Int :=
  getNextBlockInner f msg offset msg.sbatData

/-! ## Allocation-table builders -/

/-- The sbatData loop: collect at most count sectors, stopping early at the
end-of-chain sentinel.  The declared count is the structural bound, exactly
as in the source's for-loop. -/
def sbatWalk (f : ByteFile) (msg : MsgData) : Nat → Int → List Int
  | 0, _ => []
  | n+1, start =>
    if start = END_OF_CHAIN then []
    else start :: sbatWalk f msg n (getNextBlock f msg start)

/-! ## Unbounded chain walks, modelled with fuel

The directory-chain loop of propertyData and the small-block chain loop of
getChainByBlockSmall iterate until the end-of-chain sentinel with no other
bound.  They are embedded with explicit fuel: a result of none means the
loop has not reached the sentinel within the given fuel, and divergence of
the source loop is the statement that every fuel is insufficient. -/

/-- The while-loop of propertyData: visit sectors of the directory chain. -/
def propChainWalk (f : ByteFile) (msg : MsgData) : Nat → Int → Option (List Int)
  | 0, cur => if cur = END_OF_CHAIN then some [] else none
  | n+1, cur =>
    if cur = END_OF_CHAIN then some []
    else (propChainWalk f msg n (getNextBlock f msg cur)).map (fun l => cur :: l)

/-- The while-loop of getChainByBlockSmall: collect the mini-sector chain. -/
def smallChainWalk (f : ByteFile) (msg : MsgData) : Nat → Int → Option (List Int)
  | 0, cur => if cur = END_OF_CHAIN then some [] else none
  | n+1, cur =>
    if cur = END_OF_CHAIN then some []
    else (smallChainWalk f msg n (getNextBlockSmall f msg cur)).map (fun l => cur :: l)

/-- The directory-chain walk of propertyData never reaches the end-of-chain
sentinel from this start sector: the source's while-loop does not terminate. -/
def propChainDiverges (f : ByteFile) (msg : MsgData) (start : Int) : Prop :=
  ∀ fuel, propChainWalk f msg fuel start = none

/-- The mini-chain walk of getChainByBlockSmall never reaches the sentinel
from this start block: the source's while-loop does not terminate. -/
def smallChainDiverges (f : ByteFile) (msg : MsgData) (start : Int) : Prop :=
  ∀ fuel, smallChainWalk f msg fuel start = none

/-! ## Stream resolution, regular-chain path (extractorFieldValue.bat) -/

/-- Strategy selector of getFieldValue: the mini path for declared sizes
strictly below the threshold, the regular path otherwise. -/
inductive ExtractorKind where
  | sbatKind : ExtractorKind
  | batKind : ExtractorKind
deriving DecidableEq

/-- The extractor chosen by getFieldValue for a directory entry. -/
def getFieldValuePath (p : PropEntry) : ExtractorKind :=
  if p.sizeBlock < BIG_BLOCK_MIN_DOC_SIZE then ExtractorKind.sbatKind
  else ExtractorKind.batKind

/-- The regular-chain extractor extractDataViaBat with the binary decoder:
seek to the start sector's offset and read the declared number of bytes
contiguously. -/
def extractDataViaBatBinary (f : ByteFile) (msg : MsgData) (p : PropEntry) : List Nat :=
  readBytesAt f (getBlockOffsetAt msg p.startBlock) p.sizeBlock.toNat

/-- Follow up to n sectors of the regular chain, stopping at the sentinel. -/
def chainSectors (f : ByteFile) (msg : MsgData) : Nat → Int → List Int
  | 0, _ => []
  | n+1, start =>
    if start = END_OF_CHAIN then []
    else start :: chainSectors f msg n (getNextBlock f msg start)

/-- Modelled from the spec: the regular-chain read of §4.5 — follow the
regular allocation chain from the entry's start sector, concatenate every
sector of the chain, and decode the declared number of bytes.  This is the
behaviour the claim asserts of the source's regular-chain path, stated here
for comparison with extractDataViaBatBinary. -/
def specRegularChainRead (f : ByteFile) (msg : MsgData) (p : PropEntry) : List Nat :=
  let bsize := msg.bigBlockSize.toNat
  let size := p.sizeBlock.toNat
  let nsec := (size + bsize - 1) / bsize
  (((chainSectors f msg nsec p.startBlock).map
      (fun s => readBytesAt f (getBlockOffsetAt msg s) bsize)).flatten).take size

/-! ## Stream resolution, mini-stream path (extractorFieldValue.sbat) -/

/-- Iterate the regular-chain next-block lookup, as the for-loop of
readDataByBlockSmall does to reach the big block backing a mini-sector. -/
def iterNextBlock (f : ByteFile) (msg : MsgData) : Nat → Int → Int
  | 0, b => b
  | n+1, b => iterNextBlock f msg n (getNextBlock f msg b)

/-- readDataByBlockSmall with the binary decoder: translate a mini-sector
index to a big-block/offset pair inside the root entry's mini-stream and
read blockSize bytes there.  rootProp is propertyData[0]. -/
def readDataByBlockSmallBin (f : ByteFile) (msg : MsgData) (rootProp : PropEntry)
    (startBlock : Int) (blockSize : Nat) : List Nat :=
  let byteOffset := startBlock * SMALL_BLOCK_SIZE
  let bigBlockNumber := Int.fdiv byteOffset msg.bigBlockSize
  let bigBlockOffset := jsRem byteOffset msg.bigBlockSize
  let nextBlock := iterNextBlock f msg bigBlockNumber.toNat rootProp.startBlock
  readBytesAt f (getBlockOffsetAt msg nextBlock + bigBlockOffset) blockSize

/-- One mini-sector write pass of readChainDataByBlockSmall: copy the bytes
into the result buffer at the running index.  List.set discards an
out-of-range write, exactly as a JavaScript typed array does. -/
def blockWrite (st : List Nat × Nat) (data : List Nat) : List Nat × Nat :=
  data.foldl (fun p v => (p.1.set p.2 v, p.2 + 1)) st

/-- The result buffer built by readChainDataByBlockSmall: an Int8Array of
the declared size (zero-initialised), filled with the 64-byte mini-sectors
of the chain in order; the decoder is then applied to this buffer. -/
def readChainDataByBlockSmallBuf (f : ByteFile) (msg : MsgData) (rootProp : PropEntry)
    (p : PropEntry) (chain : List Int) : List Nat :=
  (chain.foldl
    (fun st b => blockWrite st (readDataByBlockSmallBin f msg rootProp b SMALL_BLOCK_SIZE.toNat))
    (List.replicate p.sizeBlock.toNat 0, 0)).1

/-! ## Tree reconstruction (createPropertyHierarchy)

The recursive worklist traversal is embedded as a single fuel-structural
function over an explicit task: either start a node (check its child
pointer) or continue the sibling worklist of a parent.  The mutable
children arrays of the source become an association list from entry index
to its ordered child-index list. -/

/-- Association list from directory-entry index to its child-index list. -/
abbrev HierSt : Type := List (Nat × List Nat)

/-- Lookup of an entry's children list, none when never assigned. -/
def hierLookup (st : HierSt) (k : Nat) : Option (List Nat) :=
  match st with
  | [] => none
  | (k2, v) :: rest => if k2 = k then some v else hierLookup rest k

/-- Assign an entry's children list (replace or append). -/
def hierSet (st : HierSt) (k : Nat) (v : List Nat) : HierSt :=
  match st with
  | [] => [(k, v)]
  | (k2, v2) :: rest => if k2 = k then (k2, v) :: rest else (k2, v2) :: hierSet rest k v

/-- Append one child index to an entry's children list. -/
def hierAppend (st : HierSt) (k : Nat) (i : Nat) : HierSt :=
  hierSet st k ((hierLookup st k).getD [] ++ [i])

/-- A pending step of createPropertyHierarchy: enter a node, or continue
the sibling worklist of the node with the given index. -/
inductive HierTask where
  | node : PropEntry → HierTask
  | walk : Nat → List Int → HierTask

/-- createPropertyHierarchy: on entering a node, stop at the no-index child
sentinel, otherwise seed the worklist with the child pointer; each popped
index is skipped if absent, appended to the parent's ordered list, recursed
into if it is a directory, and both its sibling pointers are pushed.  Fuel
0 is exhaustion (none); the source has no such bound and loops forever on
cyclic sibling structures. -/
def hierGo (props : List (Option PropEntry)) : Nat → HierTask → HierSt → Option HierSt
  | 0, _, _ => none
  | f+1, HierTask.node p, st =>
    if p.childProperty = NO_INDEX then some st
    else hierGo props f (HierTask.walk p.index [p.childProperty]) (hierSet st p.index [])
  | _+1, HierTask.walk _ [], st => some st
  | f+1, HierTask.walk parent (i :: queue), st =>
    match propAt props i with
    | none => hierGo props f (HierTask.walk parent queue) st
    | some cur =>
      let st1 := hierAppend st parent i.toNat
      let afterRec :=
        if cur.type = TYPE_DIRECTORY then hierGo props f (HierTask.node cur) st1
        else some st1
      match afterRec with
      | none => none
      | some st2 =>
        let pushes :=
          (if cur.previousProperty ≠ NO_INDEX then [cur.previousProperty] else []) ++
          (if cur.nextProperty ≠ NO_INDEX then [cur.nextProperty] else [])
        hierGo props f (HierTask.walk parent (queue ++ pushes)) st2


/-! ## Fixed property decoding (readFieldData / convertFiletimeToDateTime) -/

/-- Hexadecimal digits of a number, most significant first, as
Number.prototype.toString(16) produces (lower case). -/
def hexPad4 (n : Nat) : String :=
  let digits := Nat.toDigits 16 n
  String.mk (List.replicate (4 - digits.length) '0' ++ digits)

/-- Decimal rendering of a Nat, as String(n) produces. -/
def decRepr (n : Nat) : String := String.mk (Nat.toDigits 10 n)

/-- convertFiletimeToDateTime: assemble the low and high halves with the
JavaScript Number bitwise-or (signed 32-bit), combine them with the BigInt
shift and or, subtract the 1601-to-1970 tick offset and divide by 10000
ticks per millisecond with BigInt truncating division.  The result is the
millisecond value passed to the Date constructor. -/
def convertFiletimeToDateTime (filetime : List Nat) : Int :=
  let b := fun i => ((filetime.getD i 0 : Nat) : Int)
  let lowPart := jsOr32 (jsOr32 (jsOr32 (b 0) (toInt32 (b 1 * 256)))
      (toInt32 (b 2 * 65536))) (toInt32 (b 3 * 16777216))
  let highPart := jsOr32 (jsOr32 (jsOr32 (b 4) (toInt32 (b 5 * 256)))
      (toInt32 (b 6 * 65536))) (toInt32 (b 7 * 16777216))
  let filetimeValue := jsBigOr (highPart * 4294967296) lowPart
  jsQuot (filetimeValue - 116444736000000000) 10000

/-- Big-endian scalar assembly used by uint8ArrayToInt: the bytes are copied
into a DataView in order and read back without the little-endian flag. -/
def beNat (bytes : List Nat) (count : Nat) : Nat :=
  (List.range count).foldl (fun acc i => acc * 256 + bytes.getD i 0) 0

/-- Signed reinterpretation of a width-bits pattern. -/
def toSigned (width : Nat) (n : Nat) : Int :=
  if n < 2 ^ (width - 1) then (n : Int) else (n : Int) - 2 ^ width

/-- uint8ArrayToInt for 16- and 32-bit signed reads (big-endian DataView). -/
def uint8ArrayToIntBE (bytes : List Nat) (width : Nat) : Int :=
  toSigned width (beNat bytes (width / 8))

/-- uint8ArrayToInt for the 64-bit signed case: a signed high 32-bit word
and an unsigned low 32-bit word combined as low + (high << 32). -/
def uint8ArrayToInt64 (bytes : List Nat) : Int :=
  let high := toSigned 32 (beNat bytes 4)
  let low := (beNat (bytes.drop 4) 4 : Int)
  low + high * 4294967296

/-- A decoded inline property payload. -/
inductive FieldData where
  | nullV : FieldData
  | dateV : Int → FieldData
  | intV : Int → FieldData
  | boolV : Bool → FieldData
deriving DecidableEq

def sType0040 : String := "0040"
def sType0001 : String := "0001"
def sType0002 : String := "0002"
def sType0003 : String := "0003"
def sType0014 : String := "0014"
def sType000b : String := "000b"

/-- readFieldData: decode the 8-byte inline payload by type code. -/
def readFieldData (ftype : String) (binaryData : List Nat) : FieldData :=
  let t := jsToLower ftype
  if t = sType0040 then FieldData.dateV (convertFiletimeToDateTime binaryData)
  else if t = sType0001 then FieldData.nullV
  else if t = sType0002 then FieldData.intV (uint8ArrayToIntBE binaryData 16)
  else if t = sType0003 then FieldData.intV (uint8ArrayToIntBE binaryData 32)
  else if t = sType0014 then FieldData.intV (uint8ArrayToInt64 binaryData)
  else if t = sType000b then FieldData.boolV (uint8ArrayToInt64 binaryData ≠ 0)
  else FieldData.nullV

/-! ## The fixed property stream (readRootProperties)

The stream's own DataStream is a sequential little-endian cursor over the
decoded byte buffer; reading past the end of the backing buffer fails (a
DataView range error), which is a distinct failure from the decoder's own
FormatError on non-zero reserved bytes. -/

/-- Errors of the fixed-property decoder: the format check of the reserved
bytes, or an out-of-range cursor read. -/
inductive PErr where
  | formatErr : PErr
  | rangeErr : PErr
deriving DecidableEq

/-- Sequential cursor over the property-stream bytes. -/
structure PCur where
  bytes : List Nat
  pos : Nat

def pIsEof (c : PCur) : Bool := c.bytes.length ≤ c.pos

def pReadUint8 (c : PCur) : Except PErr (Nat × PCur) :=
  match c.bytes.get? c.pos with
  | some b => Except.ok (b, ⟨c.bytes, c.pos + 1⟩)
  | none => Except.error PErr.rangeErr

def pReadUint16 (c : PCur) : Except PErr (Nat × PCur) :=
  match pReadUint8 c with
  | Except.error e => Except.error e
  | Except.ok (b0, c1) =>
    match pReadUint8 c1 with
    | Except.error e => Except.error e
    | Except.ok (b1, c2) => Except.ok (b0 + 256 * b1, c2)

def pReadUint32 (c : PCur) : Except PErr (Nat × PCur) :=
  match pReadUint16 c with
  | Except.error e => Except.error e
  | Except.ok (w0, c1) =>
    match pReadUint16 c1 with
    | Except.error e => Except.error e
    | Except.ok (w1, c2) => Except.ok (w0 + 65536 * w1, c2)

/-- Check count reserved bytes, failing with the fatal FormatError on the
first non-zero byte, as the two reserved-byte loops do. -/
def pCheckZero (count : Nat) (c : PCur) : Except PErr PCur :=
  match count with
  | 0 => Except.ok c
  | n+1 =>
    match pReadUint8 c with
    | Except.error e => Except.error e
    | Except.ok (b, c1) => if b ≠ 0 then Except.error PErr.formatErr else pCheckZero n c1

/-- Read count bytes into a list, as the 8-byte payload loop does. -/
def pReadBytes (count : Nat) (c : PCur) : Except PErr (List Nat × PCur) :=
  match count with
  | 0 => Except.ok ([], c)
  | n+1 =>
    match pReadUint8 c with
    | Except.error e => Except.error e
    | Except.ok (b, c1) =>
      match pReadBytes n c1 with
      | Except.error e => Except.error e
      | Except.ok (bs, c2) => Except.ok (b :: bs, c2)

/-- The decimal reinterpretation JavaScript applies to the flags value:
flags are rendered as a hex string and then coerced back with ToNumber,
which parses the hex digits as decimal — a value with a digit above 9
parses to NaN and every flag bit reads as clear. -/
def hexAsDecimal : Nat → Nat → Option Nat
  | 0, _ => none
  | _+1, 0 => some 0
  | f+1, n =>
    let digit := n % 16
    if 10 ≤ digit then none
    else (hexAsDecimal f (n / 16)).map (fun r => r * 10 + digit)

/-- One decoded fixed-property record. -/
structure FixedRecord where
  ptype : Nat
  typeStr : String
  mandatory : Bool
  readable : Bool
  writeable : Bool
  binData : List Nat
  data : FieldData
deriving DecidableEq

/-- The header counters of the fixed property stream. -/
structure RootHeader where
  nextRecipientId : Nat
  nextAttachmentId : Nat
  recipientCount : Nat
  attachmentCount : Nat
deriving DecidableEq

/-- The decoded fixed property stream: header counters plus the named bag
of records (a later record with the same resolved name replaces the
earlier one, as JavaScript object assignment does). -/
structure RootProps where
  header : RootHeader
  values : List (String × FixedRecord)
deriving DecidableEq

def sUnderscore : String := "_"
def s0x : String := "0x"

/-- Association-list set with JavaScript object-assignment semantics. -/
def bagSetKV (m : List (String × FixedRecord)) (k : String) (v : FixedRecord) :
    List (String × FixedRecord) :=
  match m with
  | [] => [(k, v)]
  | (k2, v2) :: rest => if k2 = k then (k2, v) :: rest else (k2, v2) :: bagSetKV rest k v

/-- getMapiFieldName: look the four-hex-digit tag up in the external
property-tag table, keyed with an 0x prefix. -/
def getMapiFieldName (mapi : String → Option String) (fieldClass : String) : Option String :=
  mapi (s0x ++ jsToLower fieldClass)

/-- One iteration of the 16-byte record loop. -/
def pReadRecord (mapi : String → Option String) (c : PCur) :
    Except PErr ((String × FixedRecord) × PCur) :=
  match pReadUint16 c with
  | Except.error e => Except.error e
  | Except.ok (fieldType, c1) =>
    match pReadUint16 c1 with
    | Except.error e => Except.error e
    | Except.ok (fieldClass, c2) =>
      match pReadUint32 c2 with
      | Except.error e => Except.error e
      | Except.ok (flags, c3) =>
        match pReadBytes 8 c3 with
        | Except.error e => Except.error e
        | Except.ok (value, c4) =>
          let typeStr := hexPad4 fieldType
          let flagsDec := (hexAsDecimal 12 flags).getD 0
          let fieldName0 := getMapiFieldName mapi (hexPad4 fieldClass)
          let fieldName := fieldName0.getD (sUnderscore ++ typeStr)
          let rec0 : FixedRecord :=
            { ptype := fieldType
              typeStr := typeStr
              mandatory := flagsDec % 2 = 1
              readable := flagsDec / 2 % 2 = 1
              writeable := flagsDec / 4 % 2 = 1
              binData := value
              data := readFieldData typeStr value }
          Except.ok ((fieldName, rec0), c4)

/-- The while-loop over 16-byte records, fuel-structural on the remaining
record reads (each iteration consumes 16 bytes, so the buffer length bounds
the loop; the loop exits cleanly at end of buffer). -/
def pRecordLoop (mapi : String → Option String) :
    Nat → PCur → List (String × FixedRecord) → Except PErr (List (String × FixedRecord))
  | 0, c, acc => if pIsEof c then Except.ok acc else Except.error PErr.rangeErr
  | f+1, c, acc =>
    if pIsEof c then Except.ok acc
    else
      match pReadRecord mapi c with
      | Except.error e => Except.error e
      | Except.ok (kv, c1) => pRecordLoop mapi f c1 (bagSetKV acc kv.1 kv.2)

/-- readRootProperties: verify the 8 leading reserved bytes, read the four
counters, verify the 8 trailing reserved bytes, then decode 16-byte records
until end of buffer.  A non-zero reserved byte is the fatal FormatError. -/
def readRootProperties (mapi : String → Option String) (bytes : List Nat) :
    Except PErr RootProps :=
  let c0 : PCur := ⟨bytes, 0⟩
  match pCheckZero 8 c0 with
  | Except.error e => Except.error e
  | Except.ok c1 =>
    match pReadUint32 c1 with
    | Except.error e => Except.error e
    | Except.ok (nextRecip, c2) =>
      match pReadUint32 c2 with
      | Except.error e => Except.error e
      | Except.ok (nextAtt, c3) =>
        match pReadUint32 c3 with
        | Except.error e => Except.error e
        | Except.ok (recipCount, c4) =>
          match pReadUint32 c4 with
          | Except.error e => Except.error e
          | Except.ok (attCount, c5) =>
            match pCheckZero 8 c5 with
            | Except.error e => Except.error e
            | Except.ok c6 =>
              match pRecordLoop mapi bytes.length c6 [] with
              | Except.error e => Except.error e
              | Except.ok vals =>
                Except.ok
                  { header :=
                      { nextRecipientId := nextRecip
                        nextAttachmentId := nextAtt
                        recipientCount := recipCount
                        attachmentCount := attCount }
                    values := vals }

/-! ## Field extraction (fieldsData / fieldsDataDir / fieldsDataDocument)

The named property bag is an insertion-ordered association list with
JavaScript object-assignment semantics; the two ordered collections of
sub-bags (attachments, recipients) and the nested-message marker make up
the rest of the fields object.  The Stream Resolver is passed in as the
function gv from directory entry and requested decode type to the decoded
value, and the property-tag table as the function mapi (both are the
interfaces the source consumes). -/

/-- Decode type requested from the Stream Resolver (TYPE_MAPPING values). -/
inductive StreamType where
  | stStr : StreamType
  | stUcs : StreamType
  | stBin : StreamType
deriving DecidableEq

/-- A value held in the named bag. -/
inductive FieldValue where
  | strV : List Char → FieldValue
  | ucsV : List Char → FieldValue
  | binV : List Nat → FieldValue
  | utf8V : List Nat → FieldValue
  | numV : Int → FieldValue
  | propsV : RootProps → FieldValue
  | nullV : FieldValue
deriving DecidableEq

/-- JavaScript truthiness of a stored value: null, the empty string, the
empty decoded text and the number 0 are falsy; byte arrays and the
properties bag are objects and always truthy. -/
def truthy : FieldValue → Bool
  | FieldValue.strV s => ¬ s.isEmpty
  | FieldValue.ucsV s => ¬ s.isEmpty
  | FieldValue.binV _ => true
  | FieldValue.utf8V b => ¬ b.isEmpty
  | FieldValue.numV n => n ≠ 0
  | FieldValue.propsV _ => true
  | FieldValue.nullV => false

/-- The fields object: named values, attachment sub-bags, recipient
sub-bags, and the unsupported-nested-message marker. -/
inductive Bag where
  | mk : List (String × FieldValue) → List Bag → List Bag → Bool → Bag

def bagNamed : Bag → List (String × FieldValue)
  | Bag.mk n _ _ _ => n

def bagAtts : Bag → List Bag
  | Bag.mk _ a _ _ => a

def bagRecips : Bag → List Bag
  | Bag.mk _ _ r _ => r

def bagInnerMsg : Bag → Bool
  | Bag.mk _ _ _ b => b

def emptyBag : Bag := Bag.mk [] [] [] false

/-- Named-value lookup. -/
def bagLookup (bag : Bag) (k : String) : Option FieldValue :=
  match (bagNamed bag).find? (fun kv => kv.1 = k) with
  | some kv => some kv.2
  | none => none

/-- Association-list set with JavaScript object-assignment semantics. -/
def assocSet (m : List (String × FieldValue)) (k : String) (v : FieldValue) :
    List (String × FieldValue) :=
  match m with
  | [] => [(k, v)]
  | (k2, v2) :: rest => if k2 = k then (k2, v) :: rest else (k2, v2) :: assocSet rest k v

def bagSetNamed (bag : Bag) (k : String) (v : FieldValue) : Bag :=
  Bag.mk (assocSet (bagNamed bag) k v) (bagAtts bag) (bagRecips bag) (bagInnerMsg bag)

def bagPushAtt (bag : Bag) (sub : Bag) : Bag :=
  Bag.mk (bagNamed bag) (bagAtts bag ++ [sub]) (bagRecips bag) (bagInnerMsg bag)

def bagPushRecip (bag : Bag) (sub : Bag) : Bag :=
  Bag.mk (bagNamed bag) (bagAtts bag) (bagRecips bag ++ [sub]) (bagInnerMsg bag)

def bagMarkInnerMsg (bag : Bag) : Bag :=
  Bag.mk (bagNamed bag) (bagAtts bag) (bagRecips bag) true

/-- Truthiness of fields[k], the condition of the suffix-search loop. -/
def truthyKey (bag : Bag) (k : String) : Bool :=
  match bagLookup bag k with
  | some v => truthy v
  | none => false

def prefDocumentS : String := "__substg1."
def prefAttachmentS : String := "__attach_version1.0"
def prefRecipientS : String := "__recip_version1.0"
def sInnerMsgType : String := "000d"
def sPropsStream : String := "__properties_version1.0"
def sRootSub : String := "root"
def sBody : String := "Body"
def sBodyHtml : String := "BodyHtml"
def sUnknown : String := "unknown_"
def sDash : String := "-"
def sDataId : String := "dataId"
def sContentLength : String := "contentLength"
def sAttachDataClass : String := "3701"
def sPropertiesKey : String := "_properties"
def s001e : String := "001e"
def s001f : String := "001f"
def s0102 : String := "0102"

/-- TYPE_MAPPING: hex storage-type code to decode request. -/
def typeMapping (t : String) : Option StreamType :=
  if t = s001e then some StreamType.stStr
  else if t = s001f then some StreamType.stUcs
  else if t = s0102 then some StreamType.stBin
  else none

/-- The k-th candidate key of the disambiguation loop: the name itself,
then name-2, name-3, and so on. -/
def suffixCandidate (name : String) (k : Nat) : String :=
  if k = 1 then name else name ++ sDash ++ decRepr k

/-- The suffix-search loop of fieldsDataDocument, structural on fuel. -/
def freeKeyAux (bag : Bag) (name : String) : Nat → Nat → String
  | 0, k => suffixCandidate name k
  | f+1, k =>
    if truthyKey bag (suffixCandidate name k) then freeKeyAux bag name f (k + 1)
    else suffixCandidate name k

/-- The first candidate key whose current value is not truthy.  The bag has
finitely many keys and the candidates are pairwise distinct, so the
source's while-loop stops within (number of named values + 2) candidates;
that bound is the fuel. -/
def freeKey (bag : Bag) (name : String) : String :=
  freeKeyAux bag name ((bagNamed bag).length + 2) 1

/-- isAddPropertyValue: the raw Body payload is withheld when decoded as
binary. -/
def isAddPropertyValue (fieldName : String) (ftm : Option StreamType) : Bool :=
  fieldName ≠ sBody || ftm ≠ some StreamType.stBin

/-- applyValueConverter: a binary BodyHtml payload is decoded as UTF-8 text. -/
def applyValueConverter (fieldName : String) (ftm : Option StreamType)
    (v : FieldValue) : FieldValue :=
  if ftm = some StreamType.stBin ∧ fieldName = sBodyHtml then
    match v with
    | FieldValue.binV b => FieldValue.utf8V b
    | other => other
  else v

/-- The 4-hex-digit property tag encoded in a document-stream name
(value.substring(0, 4) of the name with its 12-character prefix removed). -/
def docFieldClass (p : PropEntry) : String :=
  jsSubstring (jsToLower (jsSubstringFrom p.name 12)) 0 4

/-- The 4-hex-digit storage-type code of a document-stream name. -/
def docFieldTypeS (p : PropEntry) : String :=
  jsSubstring (jsToLower (jsSubstringFrom p.name 12)) 4 8

/-- The canonical field name a document stream resolves to, before
disambiguation: the tag-table name, or unknown_ plus the raw tag. -/
def docResolvedName (mapi : String → Option String) (p : PropEntry) : String :=
  (getMapiFieldName mapi (docFieldClass p)).getD (sUnknown ++ docFieldClass p)

/-- The value a document stream stores under the (already disambiguated)
key: the resolver's decode, post-processed by applyValueConverter. -/
def docStoredValue (gv : PropEntry → StreamType → FieldValue) (p : PropEntry)
    (fieldName : String) : FieldValue :=
  let ftm := typeMapping (docFieldTypeS p)
  applyValueConverter fieldName ftm (gv p (ftm.getD StreamType.stBin))

/-- fieldsDataDocument: split the stream name into tag and storage type,
resolve the canonical name, disambiguate against keys already present,
decode and store the value, and record the attachment payload back-reference
for the reserved attachment-data class. -/
def fieldsDataDocument (mapi : String → Option String)
    (gv : PropEntry → StreamType → FieldValue) (p : PropEntry) (fields : Bag) : Bag :=
  let fieldClass := docFieldClass p
  let fieldName := freeKey fields (docResolvedName mapi p)
  let ftm := typeMapping (docFieldTypeS p)
  let fields1 :=
    if fieldName.length ≠ 0 then
      if isAddPropertyValue fieldName ftm then
        bagSetNamed fields fieldName (docStoredValue gv p fieldName)
      else fields
    else fields
  if fieldClass = sAttachDataClass then
    bagSetNamed (bagSetNamed fields1 sDataId (FieldValue.numV p.index))
      sContentLength (FieldValue.numV p.sizeBlock)
  else fields1

/-- getFieldType: the 4-hex-digit storage-type suffix of an entry name. -/
def getFieldTypeOf (p : PropEntry) : String :=
  jsSubstring (jsToLower (jsSubstringFrom p.name 12)) 4 8

/-- A pending step of the extraction walk: enter a storage (fieldsDataDir),
iterate the remainder of its child list, or classify one child storage
(fieldsDataDirInner). -/
inductive FTask where
  | dirT : PropEntry → FTask
  | kidsT : Bool → List Nat → FTask
  | innerT : PropEntry → FTask

/-- The extraction walk of fieldsDataDir and fieldsDataDirInner, structural
on fuel.  cm is the children map produced by tree reconstruction; a child
index that resolves to an absent entry aborts the walk (the source throws
there), and fuel exhaustion is none. -/
def fieldsGo (mapi : String → Option String) (gv : PropEntry → StreamType → FieldValue)
    (props : List (Option PropEntry)) (cm : HierSt) :
    Nat → FTask → Bag → Option Bag
  | 0, _, _ => none
  | f+1, FTask.dirT p, bag =>
    let dirIsRoot := p.name.length ≠ 0 && hasInfixL (jsToLower p.name).data sRootSub.data
    match hierLookup cm p.index with
    | some (i :: rest) => fieldsGo mapi gv props cm f (FTask.kidsT dirIsRoot (i :: rest)) bag
    | _ => some bag
  | _+1, FTask.kidsT _ [], bag => some bag
  | f+1, FTask.kidsT dirIsRoot (i :: rest), bag =>
    match propAt props (i : Int) with
    | none => none
    | some c =>
      if c.type = TYPE_DIRECTORY then
        match fieldsGo mapi gv props cm f (FTask.innerT c) bag with
        | none => none
        | some bag1 => fieldsGo mapi gv props cm f (FTask.kidsT dirIsRoot rest) bag1
      else if c.type = TYPE_DOCUMENT ∧ startsWithL c.name.data prefDocumentS.data then
        fieldsGo mapi gv props cm f (FTask.kidsT dirIsRoot rest)
          (fieldsDataDocument mapi gv c bag)
      else if dirIsRoot ∧ c.name = sPropsStream then
        match gv c StreamType.stBin with
        | FieldValue.binV bytes =>
          match readRootProperties mapi bytes with
          | Except.ok r =>
            fieldsGo mapi gv props cm f (FTask.kidsT dirIsRoot rest)
              (bagSetNamed bag sPropertiesKey (FieldValue.propsV r))
          | Except.error _ => none
        | _ => none
      else fieldsGo mapi gv props cm f (FTask.kidsT dirIsRoot rest) bag
  | f+1, FTask.innerT p, bag =>
    if startsWithL p.name.data prefAttachmentS.data then
      (fieldsGo mapi gv props cm f (FTask.dirT p) emptyBag).map (fun sub => bagPushAtt bag sub)
    else if startsWithL p.name.data prefRecipientS.data then
      (fieldsGo mapi gv props cm f (FTask.dirT p) emptyBag).map (fun sub => bagPushRecip bag sub)
    else if getFieldTypeOf p ≠ sInnerMsgType then
      fieldsGo mapi gv props cm f (FTask.dirT p) bag
    else some (bagMarkInnerMsg bag)

/-! ## Concrete instances

Small concrete files, directory entries and resolver stubs used to
instantiate the theorems below on explicit inputs. -/

def sSubject : String := "Subject"
def s0x0037 : String := "0x0037"
def sSub37 : String := "__substg1.0_0037001E"
def sAttach0 : String := "__attach_version1.0_#00000000"
def sRootEntryName : String := "Root Entry"

/-- Tag table resolving nothing. -/
def mapiNone : String → Option String := fun _ => none

/-- Tag table resolving tag 0037 to Subject. -/
def mapiSubject : String → Option String :=
  fun k => if k = s0x0037 then some sSubject else none

/-- The inline FILETIME payload for tick value 116444736000000000, the
1601-to-1970 epoch boundary, in little-endian byte order. -/
def epochFiletime : List Nat := [0, 128, 62, 213, 222, 177, 157, 1]

/-- The all-zero file: every 32-bit allocation-table entry reads as sector
0, so every chain step leads back to sector 0. -/
def fZero : ByteFile := fun _ => 0

/-- Header state over the all-zero file: 512-byte sectors, both allocation
tables backed by sector 0. -/
def msgCyc : MsgData := ⟨512, 128, [0], [0]⟩

/-- Little-endian byte o of an allocation-table sector holding the given
32-bit entries. -/
def fatByteAt (entries : List Int) (o : Int) : Nat :=
  pat32 (entries.getD (Int.fdiv o 4).toNat UNUSED_BLOCK) / 256 ^ (jsRem o 4).toNat % 256

/-- A FAT whose chain from sector 2 is 2, 4, 3, 5, 6, 7, 8, 9 — eight
sectors that are not laid out contiguously. -/
def fat2 : List Int := [-2, -1, 4, 5, 3, 6, 7, 8, 9, -2, -1, -1, -1, -1, -1, -1]

/-- A FAT whose chain from sector 2 is 2, 3, 4, 5, 6, 7, 8, 9 (contiguous). -/
def fat2c : List Int := [-2, -1, 3, 4, 5, 6, 7, 8, 9, -2, -1, -1, -1, -1, -1, -1]

/-- A concrete file: the allocation table lives in sector 0 (bytes 512 to
1023) and every data byte equals its sector index. -/
def f2 : ByteFile := fun i =>
  if 512 ≤ i ∧ i < 1024 then fatByteAt fat2 (i - 512)
  else if 1024 ≤ i then (Int.fdiv i 512 - 1).toNat % 256
  else 0

/-- The same file with the contiguous FAT. -/
def f2c : ByteFile := fun i =>
  if 512 ≤ i ∧ i < 1024 then fatByteAt fat2c (i - 512)
  else if 1024 ≤ i then (Int.fdiv i 512 - 1).toNat % 256
  else 0

/-- Header state for f2/f2c: 512-byte sectors, FAT in sector 0. -/
def msg2 : MsgData := ⟨512, 128, [0], []⟩

/-- A stream entry of declared size 4096 (the regular-chain path) starting
at sector 2. -/
def prop2 : PropEntry := ⟨1, 2, sSub37, -1, -1, -1, 2, 4096⟩

/-- Root entry whose child pointer references the middle of three siblings. -/
def eRoot : PropEntry := ⟨0, 5, sRootEntryName, -1, -1, 2, 0, 0⟩

def eA : PropEntry := ⟨1, 2, sSub37, -1, -1, -1, 0, 0⟩

/-- The middle sibling: previous points to entry 1, next to entry 3. -/
def eB : PropEntry := ⟨2, 2, sSub37, 1, 3, -1, 0, 0⟩

def eC : PropEntry := ⟨3, 2, sSub37, -1, -1, -1, 0, 0⟩

def props0 : List (Option PropEntry) := [some eRoot, some eA, some eB, some eC]

/-- A well-formed fixed property stream: 16 zero reserved bytes, the four
counters, and one 16-byte record of type 0002 with tag 0037. -/
def rp1 : List Nat :=
  List.replicate 8 0 ++ [1, 0, 0, 0, 2, 0, 0, 0, 0, 0, 0, 0, 0, 0, 0, 0] ++
  List.replicate 8 0 ++ [2, 0, 55, 0, 7, 0, 0, 0, 0, 1, 0, 0, 0, 0, 0, 0]

/-- A resolver whose decode of entry 3 is the empty string and of any other
entry the one-character string B. -/
def gv6 : PropEntry → StreamType → FieldValue :=
  fun p _ => if p.index = 3 then FieldValue.strV [] else FieldValue.strV ['B']

/-- A resolver that decodes everything to the one-character string A. -/
def gvA : PropEntry → StreamType → FieldValue := fun _ _ => FieldValue.strV ['A']

/-- Two document streams with the same name (hence the same tag 0037). -/
def p61 : PropEntry := ⟨3, 2, sSub37, -1, -1, -1, 0, 0⟩

def p62 : PropEntry := ⟨4, 2, sSub37, -1, -1, -1, 0, 0⟩

/-- An attachment storage entry. -/
def pAtt : PropEntry := ⟨1, 1, sAttach0, -1, -1, -1, 0, 0⟩

/-- A document stream inside the attachment, reusing the message-scope
Subject tag 0037. -/
def pDoc37 : PropEntry := ⟨2, 2, sSub37, -1, -1, -1, 0, 0⟩

def propsW : List (Option PropEntry) := [none, some pAtt, some pDoc37]

/-- Children map: the attachment storage (index 1) owns the stream at 2. -/
def cmW : HierSt := [(1, [2])]

/-- A top-level message bag that already holds a Subject value. -/
def bagTop : Bag := Bag.mk [(sSubject, FieldValue.strV ['M'])] [] [] false

/-- The attachment sub-bag produced from pDoc37 by the resolver gvA. -/
def subW : Bag := Bag.mk [(sSubject, FieldValue.strV ['A'])] [] [] false

/-- bagTop after extraction of the attachment subtree. -/
def resultW : Bag := Bag.mk [(sSubject, FieldValue.strV ['M'])] [subW] [] false

/-- A small stream of declared size 100 read through a two-block mini chain. -/
def prop10 : PropEntry := ⟨5, 2, sSub37, -1, -1, -1, 0, 100⟩

def root10 : PropEntry := ⟨0, 5, sRootEntryName, -1, -1, 1, 0, 0⟩

def chain10 : List Int := [0, 1]

end MsgModel

namespace MsgModel

/-! ## Shared lemmas -/

/-- A Nat-valued directory index never equals the no-index sentinel. -/
theorem natCast_ne_noIndex (n : Nat) : (n : Int) ≠ NO_INDEX := by
  unfold NO_INDEX
  have : (0 : Int) ≤ (n : Int) := Int.natCast_nonneg n
  omega

/-- Entering a node whose child pointer is the sentinel changes nothing. -/
theorem hierNode_noChild (props : List (Option PropEntry)) (p : PropEntry)
    (st : HierSt) (f : Nat) (h : p.childProperty = NO_INDEX) :
    hierGo props (f+1) (HierTask.node p) st = some st := by
  simp [hierGo, h]

/-- The conditional recursion step of the sibling worklist is the identity
for a popped entry without children, whatever its type tag. -/
theorem hierRecStep (props : List (Option PropEntry)) (c : PropEntry)
    (st : HierSt) (f : Nat) (h : c.childProperty = NO_INDEX) :
    (if c.type = TYPE_DIRECTORY then hierGo props (f+1) (HierTask.node c) st
     else some st) = some st := by
  by_cases ht : c.type = TYPE_DIRECTORY
  · simp [ht, hierNode_noChild props c st f h]
  · simp [ht]

/-! ## C1 -/

/-- C1: for the fixed 0040 record whose payload encodes tick value
116444736000000000 (the 1601-to-1970 boundary), the decoder does NOT
produce Unix millisecond 0: the low 32-bit half of that tick value has its
top bit set, the JavaScript Number bitwise-or makes the low part negative,
and the BigInt or of the shifted high part with that negative low part
collapses to the low part alone, so the decoded value is millisecond
-11644473671732 instead of 0. -/
theorem c1_filetime_epoch_mismatch :
    readFieldData sType0040 epochFiletime = FieldData.dateV (-11644473671732) ∧
    convertFiletimeToDateTime epochFiletime ≠ 0 :=
  ⟨by decide, by decide⟩

/-! ## C5 -/

/-- C5: getFieldValue selects the mini-chain extractor exactly when the
declared size is strictly below 4096 bytes, and in particular a declared
size of exactly 4096 selects the regular-chain extractor. -/
theorem c5_threshold_selection :
    (∀ p : PropEntry, getFieldValuePath p = ExtractorKind.sbatKind ↔ p.sizeBlock < 4096) ∧
    (∀ p : PropEntry, p.sizeBlock = 4096 → getFieldValuePath p = ExtractorKind.batKind) := by
  constructor
  · intro p
    unfold getFieldValuePath BIG_BLOCK_MIN_DOC_SIZE
    by_cases h : p.sizeBlock < 4096 <;> simp [h]
  · intro p h
    unfold getFieldValuePath BIG_BLOCK_MIN_DOC_SIZE
    rw [h]
    norm_num

/-- Witness for C5 at the boundary entry of declared size 4096. -/
theorem c5_threshold_selection_witness :
    getFieldValuePath prop2 = ExtractorKind.batKind :=
  c5_threshold_selection.2 prop2 (by decide)

/-! ## C9 -/

/-- C9: an entry whose child pointer is the no-index sentinel gets an empty
reconstructed child-index list: the traversal terminates at once and the
entry's child list, as the extractor later reads it, is empty. -/
theorem c9_sentinel_child_empty (props : List (Option PropEntry)) (p : PropEntry)
    (f : Nat) (h : p.childProperty = NO_INDEX) :
    (hierGo props (f+1) (HierTask.node p) []).map
      (fun st => (hierLookup st p.index).getD []) = some [] := by
  simp [hierGo, h, hierLookup]

/-- Witness for C9 at a concrete entry with the sentinel child pointer. -/
theorem c9_sentinel_child_empty_witness :
    (hierGo props0 1 (HierTask.node eA) []).map
      (fun st => (hierLookup st eA.index).getD []) = some [] :=
  c9_sentinel_child_empty props0 eA 0 (by decide)

/-! ## C3 -/

/-- Counterexample to C3: over the all-zero file the small-block allocation
table maps mini-sector 0 to itself, and the small-block chain walk of
getChainByBlockSmall started at 0 never reaches the end-of-chain sentinel:
the source's while-loop does not terminate, so a parse touching this chain
performs unbounded work. -/
theorem c3_cyclic_chain_counterexample : smallChainDiverges fZero msgCyc 0 := by
  have hnext : getNextBlockSmall fZero msgCyc 0 = 0 := by decide
  intro fuel
  induction fuel with
  | zero => decide
  | succ n ih => simp [smallChainWalk, END_OF_CHAIN, hnext, ih]

/-- C3 as amended: the allocation-table builders are bounded by the declared
counts (the sbat walk emits at most its count argument), but the
sentinel-only loops are not cycle-safe: the directory-chain walk of
propertyData diverges on the all-zero file, whose FAT maps sector 0 to
itself. -/
theorem c3_bounded_tables_amended :
    (∀ (f : ByteFile) (msg : MsgData) (n : Nat) (start : Int),
      (sbatWalk f msg n start).length ≤ n) ∧
    propChainDiverges fZero msgCyc 0 := by
  constructor
  · intro f msg n start
    induction n generalizing start with
    | zero => simp [sbatWalk]
    | succ m ih =>
      rw [sbatWalk]
      split
      · simp
      · simpa using Nat.succ_le_succ (ih _)
  · have hnext : getNextBlock fZero msgCyc 0 = 0 := by decide
    intro fuel
    induction fuel with
    | zero => decide
    | succ n ih => simp [propChainWalk, END_OF_CHAIN, hnext, ih]

end MsgModel

namespace MsgModel

/-! ## C7 -/

/-- C7: when the root's child pointer references the middle one of three
siblings linked by previous/next pointers, the worklist traversal appends
all three sibling indices to the root's ordered child list, each exactly
once (the traversal order is middle, previous, next), for any placement of
the three entries in the flat property list. -/
theorem c7_sibling_worklist_all
    (props : List (Option PropEntry)) (r ea eb ec : PropEntry) (f : Nat)
    (hchild : r.childProperty = (eb.index : Int))
    (hb : propAt props ((eb.index : Int)) = some eb)
    (hbp : eb.previousProperty = (ea.index : Int))
    (hbn : eb.nextProperty = (ec.index : Int))
    (ha : propAt props ((ea.index : Int)) = some ea)
    (hc : propAt props ((ec.index : Int)) = some ec)
    (hbc : eb.childProperty = NO_INDEX)
    (hap : ea.previousProperty = NO_INDEX) (han : ea.nextProperty = NO_INDEX)
    (hac : ea.childProperty = NO_INDEX)
    (hcp : ec.previousProperty = NO_INDEX) (hcn : ec.nextProperty = NO_INDEX)
    (hcc : ec.childProperty = NO_INDEX)
    (hab : ea.index ≠ eb.index) (hbc2 : eb.index ≠ ec.index) (hac2 : ea.index ≠ ec.index) :
    hierGo props (f+5) (HierTask.node r) [] =
      some [(r.index, [eb.index, ea.index, ec.index])] ∧
    ([eb.index, ea.index, ec.index].count ea.index = 1 ∧
     [eb.index, ea.index, ec.index].count eb.index = 1 ∧
     [eb.index, ea.index, ec.index].count ec.index = 1) := by
  have hrne : r.childProperty ≠ NO_INDEX := by
    rw [hchild]; exact natCast_ne_noIndex eb.index
  constructor
  · by_cases tb : eb.type = TYPE_DIRECTORY <;>
    by_cases ta : ea.type = TYPE_DIRECTORY <;>
    by_cases tc : ec.type = TYPE_DIRECTORY <;>
      simp [hierGo, hchild, hbp, hbn, hb, ha, hc, hbc, hap, han, hac, hcp, hcn, hcc,
        tb, ta, tc, hrne, hierSet, hierAppend, hierLookup, natCast_ne_noIndex]
  · refine ⟨?_, ?_, ?_⟩ <;>
      simp [List.count_cons, List.count_nil, hab, hbc2, hac2, Ne.symm hab,
        Ne.symm hbc2, Ne.symm hac2]

/-- Witness for C7 on the concrete four-entry directory props0. -/
theorem c7_sibling_worklist_all_witness :
    hierGo props0 5 (HierTask.node eRoot) [] =
      some [(eRoot.index, [eB.index, eA.index, eC.index])] ∧
    ([eB.index, eA.index, eC.index].count eA.index = 1 ∧
     [eB.index, eA.index, eC.index].count eB.index = 1 ∧
     [eB.index, eA.index, eC.index].count eC.index = 1) :=
  c7_sibling_worklist_all props0 eRoot eA eB eC 0 (by decide) (by decide) (by decide)
    (by decide) (by decide) (by decide) (by decide) (by decide) (by decide) (by decide)
    (by decide) (by decide) (by decide) (by decide) (by decide) (by decide)

end MsgModel

namespace MsgModel

/-! ## C4 support lemmas: the property-stream cursor -/

/-- A one-byte read inside the buffer succeeds and advances the cursor. -/
theorem pReadUint8_ok (bytes : List Nat) (pos : Nat) (h : pos < bytes.length) :
    pReadUint8 ⟨bytes, pos⟩ = Except.ok (bytes.getD pos 0, ⟨bytes, pos + 1⟩) := by
  have hx : bytes.get? pos = some bytes[pos] := List.get?_eq_get h
  simp [pReadUint8, hx, List.getD_eq_getElem, h]

/-- A failing one-byte read is a range error, never the FormatError. -/
theorem pReadUint8_not_format (c : PCur) (e : PErr)
    (h : pReadUint8 c = Except.error e) : e = PErr.rangeErr := by
  unfold pReadUint8 at h
  split at h
  · exact absurd h (by simp)
  · cases h; rfl

/-- A two-byte read inside the buffer succeeds and advances the cursor. -/
theorem pReadUint16_ok (bytes : List Nat) (pos : Nat) (h : pos + 2 ≤ bytes.length) :
    ∃ v, pReadUint16 ⟨bytes, pos⟩ = Except.ok (v, ⟨bytes, pos + 2⟩) := by
  have h1 := pReadUint8_ok bytes pos (by omega)
  have h2 := pReadUint8_ok bytes (pos + 1) (by omega)
  refine ⟨bytes.getD pos 0 + 256 * bytes.getD (pos + 1) 0, ?_⟩
  simp [pReadUint16, h1, h2, Nat.add_assoc]

/-- A failing two-byte read is a range error. -/
theorem pReadUint16_not_format (c : PCur) (e : PErr)
    (h : pReadUint16 c = Except.error e) : e = PErr.rangeErr := by
  unfold pReadUint16 at h
  split at h
  next e1 heq => cases h; exact pReadUint8_not_format _ _ heq
  next b0 c1 heq =>
    split at h
    next e2 heq2 => cases h; exact pReadUint8_not_format _ _ heq2
    next => exact absurd h (by simp)

/-- A four-byte read inside the buffer succeeds and advances the cursor. -/
theorem pReadUint32_ok (bytes : List Nat) (pos : Nat) (h : pos + 4 ≤ bytes.length) :
    ∃ v, pReadUint32 ⟨bytes, pos⟩ = Except.ok (v, ⟨bytes, pos + 4⟩) := by
  obtain ⟨v1, h1⟩ := pReadUint16_ok bytes pos (by omega)
  obtain ⟨v2, h2⟩ := pReadUint16_ok bytes (pos + 2) (by omega)
  refine ⟨v1 + 65536 * v2, ?_⟩
  have : pos + 2 + 2 = pos + 4 := by omega
  rw [this] at h2
  simp [pReadUint32, h1, h2]

/-- A failing four-byte read is a range error. -/
theorem pReadUint32_not_format (c : PCur) (e : PErr)
    (h : pReadUint32 c = Except.error e) : e = PErr.rangeErr := by
  unfold pReadUint32 at h
  split at h
  next e1 heq => cases h; exact pReadUint16_not_format _ _ heq
  next w0 c1 heq =>
    split at h
    next e2 heq2 => cases h; exact pReadUint16_not_format _ _ heq2
    next => exact absurd h (by simp)

/-- A byte-array read inside the buffer succeeds and advances the cursor. -/
theorem pReadBytes_ok (bytes : List Nat) : ∀ (n pos : Nat), pos + n ≤ bytes.length →
    ∃ bs, pReadBytes n ⟨bytes, pos⟩ = Except.ok (bs, ⟨bytes, pos + n⟩) := by
  intro n
  induction n with
  | zero => intro pos h; exact ⟨[], by simp [pReadBytes]⟩
  | succ m ih =>
    intro pos h
    obtain ⟨bs, hbs⟩ := ih (pos + 1) (by omega)
    have h1 := pReadUint8_ok bytes pos (by omega)
    have : pos + 1 + m = pos + (m + 1) := by omega
    rw [this] at hbs
    exact ⟨bytes.getD pos 0 :: bs, by simp [pReadBytes, h1, hbs]⟩

/-- A failing byte-array read is a range error. -/
theorem pReadBytes_not_format (n : Nat) : ∀ (c : PCur) (e : PErr),
    pReadBytes n c = Except.error e → e = PErr.rangeErr := by
  induction n with
  | zero => intro c e h; simp [pReadBytes] at h
  | succ m ih =>
    intro c e h
    rw [pReadBytes] at h
    split at h
    next e1 heq => cases h; exact pReadUint8_not_format _ _ heq
    next b c1 heq =>
      split at h
      next e2 heq2 => cases h; exact ih _ _ heq2
      next => exact absurd h (by simp)

/-- The reserved-byte loop succeeds exactly when the n checked bytes are all
zero, and fails with the fatal FormatError otherwise. -/
theorem pCheckZero_spec (bytes : List Nat) : ∀ (n pos : Nat), pos + n ≤ bytes.length →
    pCheckZero n ⟨bytes, pos⟩ =
      (if ((bytes.drop pos).take n).all (fun b => b == 0) then Except.ok ⟨bytes, pos + n⟩
       else Except.error PErr.formatErr) := by
  intro n
  induction n with
  | zero => intro pos h; simp [pCheckZero]
  | succ m ih =>
    intro pos h
    have hlt : pos < bytes.length := by omega
    have hdrop : bytes.drop pos = bytes[pos] :: bytes.drop (pos + 1) :=
      List.drop_eq_getElem_cons hlt
    have hget : bytes.getD pos 0 = bytes[pos] := List.getD_eq_getElem bytes 0 hlt
    rw [pCheckZero, pReadUint8_ok bytes pos (by omega)]
    show (if bytes.getD pos 0 ≠ 0 then Except.error PErr.formatErr
          else pCheckZero m ⟨bytes, pos + 1⟩) = _
    rw [hdrop, hget]
    by_cases hz : bytes[pos] = 0
    · have harith : pos + 1 + m = pos + (m + 1) := by omega
      simp [hz, ih (pos + 1) (by omega), harith]
    · rw [List.take_succ_cons, List.all_cons]
      simp [hz]

/-- A 16-byte record read inside the buffer succeeds. -/
theorem pReadRecord_ok (mapi : String → Option String) (bytes : List Nat) (pos : Nat)
    (h : pos + 16 ≤ bytes.length) :
    ∃ kv, pReadRecord mapi ⟨bytes, pos⟩ = Except.ok (kv, ⟨bytes, pos + 16⟩) := by
  obtain ⟨v1, h1⟩ := pReadUint16_ok bytes pos (by omega)
  obtain ⟨v2, h2⟩ := pReadUint16_ok bytes (pos + 2) (by omega)
  obtain ⟨v3, h3⟩ := pReadUint32_ok bytes (pos + 4) (by omega)
  obtain ⟨v4, h4⟩ := pReadBytes_ok bytes 8 (pos + 8) (by omega)
  rw [show pos + 2 + 2 = pos + 4 from by omega] at h2
  rw [show pos + 4 + 4 = pos + 8 from by omega] at h3
  rw [show pos + 8 + 8 = pos + 16 from by omega] at h4
  simp only [pReadRecord, h1, h2, h3, h4]
  exact ⟨_, rfl⟩

/-- A failing record read is a range error: the record loop never raises
the FormatError. -/
theorem pReadRecord_not_format (mapi : String → Option String) (c : PCur) (e : PErr)
    (h : pReadRecord mapi c = Except.error e) : e = PErr.rangeErr := by
  unfold pReadRecord at h
  split at h
  next heq => cases h; exact pReadUint16_not_format _ _ heq
  next ft c1 heq =>
    split at h
    next heq2 => cases h; exact pReadUint16_not_format _ _ heq2
    next fc c2 heq2 =>
      split at h
      next heq3 => cases h; exact pReadUint32_not_format _ _ heq3
      next fl c3 heq3 =>
        split at h
        next heq4 => cases h; exact pReadBytes_not_format _ _ _ heq4
        next v c4 heq4 => exact absurd h (by simp)

/-- The record loop succeeds whenever the remaining bytes are a whole
number of 16-byte records within the fuel. -/
theorem pRecordLoop_ok (mapi : String → Option String) (bytes : List Nat) :
    ∀ (fuel pos : Nat) (acc : List (String × FixedRecord)),
    pos ≤ bytes.length → (bytes.length - pos) % 16 = 0 →
    (bytes.length - pos) / 16 ≤ fuel →
    ∃ vals, pRecordLoop mapi fuel ⟨bytes, pos⟩ acc = Except.ok vals := by
  intro fuel
  induction fuel with
  | zero =>
    intro pos acc hle hmod hdiv
    have hend : bytes.length ≤ pos := by omega
    refine ⟨acc, ?_⟩
    rw [pRecordLoop]
    simp [pIsEof, hend]
  | succ f ih =>
    intro pos acc hle hmod hdiv
    by_cases hend : bytes.length ≤ pos
    · refine ⟨acc, ?_⟩
      rw [pRecordLoop]
      simp [pIsEof, hend]
    · have h16 : pos + 16 ≤ bytes.length := by omega
      obtain ⟨kv, hkv⟩ := pReadRecord_ok mapi bytes pos h16
      obtain ⟨vals, hvals⟩ :=
        ih (pos + 16) (bagSetKV acc kv.1 kv.2) (by omega) (by omega) (by omega)
      refine ⟨vals, ?_⟩
      rw [pRecordLoop]
      simp [pIsEof, hend, hkv, hvals]

/-- A failing record loop is a range error, never the FormatError. -/
theorem pRecordLoop_not_format (mapi : String → Option String) :
    ∀ (fuel : Nat) (c : PCur) (acc : List (String × FixedRecord)) (e : PErr),
    pRecordLoop mapi fuel c acc = Except.error e → e = PErr.rangeErr := by
  intro fuel
  induction fuel with
  | zero =>
    intro c acc e h
    rw [pRecordLoop] at h
    split at h
    · exact absurd h (by simp)
    · cases h; rfl
  | succ f ih =>
    intro c acc e h
    rw [pRecordLoop] at h
    split at h
    · exact absurd h (by simp)
    · split at h
      next heq => cases h; exact pReadRecord_not_format _ _ _ heq
      next kv c1 heq => exact ih _ _ _ h

/-! ## C4 -/

/-- C4: for a fixed property stream holding at least its 32-byte header,
decoding raises the fatal FormatError exactly when one of the 16 reserved
bytes (offsets 0 to 7 and 24 to 31) is non-zero — so no record is extracted
from such a stream — and when all 16 reserved bytes are zero these checks
never raise: on a stream whose record area is a whole number of 16-byte
records the decode succeeds. -/
theorem c4_reserved_byte_checks (mapi : String → Option String) (bytes : List Nat)
    (h32 : 32 ≤ bytes.length) :
    ((readRootProperties mapi bytes = Except.error PErr.formatErr) ↔
      ((bytes.take 8 ++ (bytes.drop 24).take 8).all (fun b => b == 0)) = false) ∧
    ((bytes.length - 32) % 16 = 0 →
      ((bytes.take 8 ++ (bytes.drop 24).take 8).all (fun b => b == 0)) = true →
      ∃ r, readRootProperties mapi bytes = Except.ok r) := by
  have hA := pCheckZero_spec bytes 8 0 (by omega)
  rw [List.drop_zero] at hA
  have hB := pCheckZero_spec bytes 8 24 (by omega)
  by_cases hAz : ((bytes.take 8).all (fun b => b == 0)) = true
  · obtain ⟨w1, hw1⟩ := pReadUint32_ok bytes 8 (by omega)
    obtain ⟨w2, hw2⟩ := pReadUint32_ok bytes 12 (by omega)
    obtain ⟨w3, hw3⟩ := pReadUint32_ok bytes 16 (by omega)
    obtain ⟨w4, hw4⟩ := pReadUint32_ok bytes 20 (by omega)
    by_cases hBz : (((bytes.drop 24).take 8).all (fun b => b == 0)) = true
    · cases hl : pRecordLoop mapi bytes.length ⟨bytes, 32⟩ [] with
      | error e =>
        have he : e = PErr.rangeErr := pRecordLoop_not_format mapi _ _ _ _ hl
        subst he
        have hEval : readRootProperties mapi bytes = Except.error PErr.rangeErr := by
          simp [readRootProperties, hA, hAz, hB, hBz, hw1, hw2, hw3, hw4, hl]
        constructor
        · rw [hEval]
          constructor
          · intro hcontra; exact absurd hcontra (by simp)
          · intro hfalse; rw [List.all_append, hAz, hBz] at hfalse; simp at hfalse
        · intro hmod hall
          obtain ⟨vals, hvals⟩ :=
            pRecordLoop_ok mapi bytes bytes.length 32 [] (by omega) (by omega) (by omega)
          rw [hl] at hvals
          exact absurd hvals (by simp)
      | ok vals =>
        have hEval : ∃ r, readRootProperties mapi bytes = Except.ok r := by
          simp only [readRootProperties, hA, hB, hw1, hw2, hw3, hw4, hAz, hBz, if_true, hl]
          exact ⟨_, rfl⟩
        obtain ⟨r, hr⟩ := hEval
        constructor
        · rw [hr]
          constructor
          · intro hcontra; exact absurd hcontra (by simp)
          · intro hfalse; rw [List.all_append, hAz, hBz] at hfalse; simp at hfalse
        · intro _ _; exact ⟨r, hr⟩
    · have hBf : (((bytes.drop 24).take 8).all (fun b => b == 0)) = false := by
        simpa using hBz
      have hEval : readRootProperties mapi bytes = Except.error PErr.formatErr := by
        simp [readRootProperties, hA, hAz, hB, hBf, hw1, hw2, hw3, hw4]
      constructor
      · rw [hEval]
        constructor
        · intro _; rw [List.all_append, hAz, hBf]; rfl
        · intro _; rfl
      · intro hmod hall
        rw [List.all_append, hAz, hBf] at hall
        exact absurd hall (by simp)
  · have hAf : ((bytes.take 8).all (fun b => b == 0)) = false := by simpa using hAz
    have hEval : readRootProperties mapi bytes = Except.error PErr.formatErr := by
      simp [readRootProperties, hA, hAf]
    constructor
    · rw [hEval]
      constructor
      · intro _; rw [List.all_append, hAf]; rfl
      · intro _; rfl
    · intro hmod hall
      rw [List.all_append, hAf] at hall
      exact absurd hall (by simp)

/-- Witness for C4 on the concrete 48-byte stream rp1. -/
theorem c4_reserved_byte_checks_witness :
    ∃ r, readRootProperties mapiNone rp1 = Except.ok r :=
  (c4_reserved_byte_checks mapiNone rp1 (by decide)).2 (by decide) (by decide)

end MsgModel

namespace MsgModel

/-! ## C10 support lemmas: typed-array writes -/

/-- Writes at or past the end of the buffer are discarded and only advance
the index, as out-of-range stores on a typed array are. -/
theorem foldSet_oob : ∀ (d buf : List Nat) (i : Nat), buf.length ≤ i →
    d.foldl (fun p v => (p.1.set p.2 v, p.2 + 1)) (buf, i) = (buf, i + d.length) := by
  intro d
  induction d with
  | nil => intro buf i h; simp
  | cons v rest ih =>
    intro buf i h
    have hset : buf.set i v = buf := List.set_eq_of_length_le h
    simp only [List.foldl_cons, hset]
    rw [ih buf (i + 1) (by omega)]
    simp only [Prod.mk.injEq, List.length_cons]
    exact ⟨trivial, by omega⟩

/-- Copying a byte list into the length-L buffer at the running index
replaces the corresponding window, with the overhang discarded. -/
theorem foldSet_spec : ∀ (d T Z : List Nat) (L : Nat), L ≤ T.length + Z.length →
    d.foldl (fun p v => (p.1.set p.2 v, p.2 + 1)) ((T ++ Z).take L, T.length)
      = ((T ++ d ++ Z.drop d.length).take L, T.length + d.length) := by
  intro d
  induction d with
  | nil => intro T Z L h; simp
  | cons v rest ih =>
    intro T Z L h
    by_cases hTL : T.length < L
    · match Z, h with
      | z :: Zt, h =>
        have hk : T.length ≤ L := by omega
        obtain ⟨k, hLT⟩ : ∃ k, L - T.length = k + 1 := ⟨L - T.length - 1, by omega⟩
        have hset : ((T ++ z :: Zt).take L).set T.length v = (T ++ v :: Zt).take L := by
          rw [List.take_append_eq_append_take, List.take_append_eq_append_take,
            List.take_of_length_le hk, hLT, List.take_succ_cons, List.take_succ_cons,
            List.set_append]
          simp
        simp only [List.foldl_cons, hset]
        have hstep : (T ++ v :: Zt).take L = ((T ++ [v]) ++ Zt).take L := by
          simp
        rw [hstep, show T.length + 1 = (T ++ [v]).length from by simp]
        rw [ih (T ++ [v]) Zt L (by simp at h ⊢; omega)]
        simp only [Prod.mk.injEq, List.length_append, List.length_cons, List.length_nil]
        constructor
        · rw [List.append_assoc T [v], List.singleton_append, List.drop_succ_cons]
        · omega
      | [], h =>
        exfalso
        simp at h
        omega
    · have hL : L ≤ T.length := by omega
      have htake : (T ++ Z).take L = T.take L := List.take_append_of_le_length hL
      have hlen : ((T ++ Z).take L).length = L := by
        rw [List.length_take]
        simp
        omega
      have hset : ((T ++ Z).take L).set T.length v = (T ++ Z).take L :=
        List.set_eq_of_length_le (by omega)
      simp only [List.foldl_cons, hset]
      rw [foldSet_oob rest ((T ++ Z).take L) (T.length + 1) (by omega)]
      have h1 : (T ++ (v :: rest) ++ Z.drop (v :: rest).length).take L = T.take L := by
        rw [List.append_assoc]
        exact List.take_append_of_le_length hL
      simp only [Prod.mk.injEq]
      constructor
      · rw [htake, h1]
      · simp
        omega

/-- Folding the per-mini-sector write over a list of byte blocks fills the
buffer with their concatenation, truncated to the buffer length. -/
theorem chainWrite_spec : ∀ (chs : List (List Nat)) (T Z : List Nat) (L : Nat),
    L ≤ T.length + Z.length →
    chs.foldl blockWrite ((T ++ Z).take L, T.length)
      = ((T ++ chs.flatten ++ Z.drop chs.flatten.length).take L,
         T.length + chs.flatten.length) := by
  intro chs
  induction chs with
  | nil => intro T Z L h; simp
  | cons d rest ih =>
    intro T Z L h
    simp only [List.foldl_cons]
    rw [show blockWrite ((T ++ Z).take L, T.length) d
        = d.foldl (fun p v => (p.1.set p.2 v, p.2 + 1)) ((T ++ Z).take L, T.length)
        from rfl]
    rw [foldSet_spec d T Z L h]
    rw [show (T ++ d ++ Z.drop d.length).take L = ((T ++ d) ++ Z.drop d.length).take L
        from rfl]
    rw [show T.length + d.length = (T ++ d).length from by simp]
    rw [ih (T ++ d) (Z.drop d.length) L (by simp; omega)]
    simp only [Prod.mk.injEq]
    constructor
    · simp [List.flatten_cons, List.drop_drop, List.length_append, List.append_assoc,
        Nat.add_comm]
    · simp
      omega

/-- The concatenation of the chain's 64-byte mini-sector reads has exactly
64 bytes per chain entry. -/
theorem flattenBlocks_length (f : ByteFile) (msg : MsgData) (rootProp : PropEntry) :
    ∀ (chain : List Int),
    ((chain.map (fun b =>
      readDataByBlockSmallBin f msg rootProp b SMALL_BLOCK_SIZE.toNat)).flatten).length
        = 64 * chain.length := by
  intro chain
  induction chain with
  | nil => simp
  | cons b rest ih =>
    rw [List.map_cons, List.flatten_cons, List.length_append, ih]
    have hRB : ∀ (off : Int) (n : Nat), (readBytesAt f off n).length = n := by
      intro off n
      rw [readBytesAt, List.length_map]
      exact List.length_range n
    have h64 : (readDataByBlockSmallBin f msg rootProp b SMALL_BLOCK_SIZE.toNat).length = 64 :=
      hRB _ 64
    rw [h64, List.length_cons]
    omega

/-! ## C10 -/

/-- C10: for a mini-chain of length greater than one, the buffer the value
is decoded from has exactly the declared byte size: the Int8Array is
allocated at the declared size before concatenation, out-of-range writes
are discarded, and whenever the chain supplies at least the declared number
of bytes the buffer is precisely the concatenation of the chain's 64-byte
mini-sectors truncated to the declared size — excess bytes of the final
mini-sector never reach the decoder. -/
theorem c10_truncated_to_declared_size (f : ByteFile) (msg : MsgData)
    (rootProp p : PropEntry) (chain : List Int) (hchain : 1 < chain.length) :
    (readChainDataByBlockSmallBuf f msg rootProp p chain).length = p.sizeBlock.toNat ∧
    (p.sizeBlock.toNat ≤ 64 * chain.length →
      readChainDataByBlockSmallBuf f msg rootProp p chain =
        ((chain.map (fun b =>
          readDataByBlockSmallBin f msg rootProp b SMALL_BLOCK_SIZE.toNat)).flatten).take
          p.sizeBlock.toNat) := by
  clear hchain
  set L := p.sizeBlock.toNat with hLdef
  set g := fun b => readDataByBlockSmallBin f msg rootProp b SMALL_BLOCK_SIZE.toNat with hg
  have hstart : (List.replicate L 0, 0)
      = ((([] : List Nat) ++ List.replicate L 0).take L, ([] : List Nat).length) := by
    simp
  have hfold : readChainDataByBlockSmallBuf f msg rootProp p chain
      = ((([] : List Nat) ++ (chain.map g).flatten
          ++ (List.replicate L 0).drop (chain.map g).flatten.length).take L) := by
    rw [readChainDataByBlockSmallBuf]
    rw [← List.foldl_map g blockWrite chain (List.replicate L 0, 0)]
    rw [hstart, chainWrite_spec (chain.map g) [] (List.replicate L 0) L (by simp)]
  have hflatlen := flattenBlocks_length f msg rootProp chain
  rw [← hg] at hflatlen
  constructor
  · rw [hfold]
    simp only [List.nil_append, List.length_take, List.length_append, List.length_drop,
      List.length_replicate]
    omega
  · intro hle
    rw [hfold]
    simp only [List.nil_append]
    rw [List.take_append_of_le_length (by omega)]

/-- Witness for C10 on a concrete two-sector chain of a 100-byte stream. -/
theorem c10_truncated_to_declared_size_witness :
    (readChainDataByBlockSmallBuf fZero msgCyc root10 prop10 chain10).length
        = prop10.sizeBlock.toNat ∧
    (prop10.sizeBlock.toNat ≤ 64 * chain10.length →
      readChainDataByBlockSmallBuf fZero msgCyc root10 prop10 chain10 =
        ((chain10.map (fun b =>
          readDataByBlockSmallBin fZero msgCyc root10 b SMALL_BLOCK_SIZE.toNat)).flatten).take
          prop10.sizeBlock.toNat) :=
  c10_truncated_to_declared_size fZero msgCyc root10 prop10 chain10 (by decide)

end MsgModel

namespace MsgModel

/-! ## C2 support lemmas -/

/-- The ceiling sector count covers the declared size. -/
theorem le_ceil_mul (size B : Nat) (hB : 0 < B) : size ≤ ((size + B - 1) / B) * B := by
  rcases Nat.eq_zero_or_pos size with h0 | hpos
  · simp [h0]
  · have hdm := Nat.div_add_mod (size + B - 1) B
    have hmlt : (size + B - 1) % B < B := Nat.mod_lt _ hB
    generalize hq : (size + B - 1) / B = q at hdm ⊢
    rw [Nat.mul_comm]
    generalize hP : B * q = P at hdm ⊢
    omega

/-- When the allocation chain is laid out contiguously, following it visits
the consecutive sectors from the start sector. -/
theorem chainSectors_contig (f : ByteFile) (msg : MsgData) :
    ∀ (n : Nat) (s : Int), 0 ≤ s →
    (∀ k : Nat, k + 1 < n → getNextBlock f msg (s + (k : Int)) = s + (k : Int) + 1) →
    chainSectors f msg n s = (List.range n).map (fun (k : Nat) => s + (k : Int)) := by
  intro n
  induction n with
  | zero => intro s hs hc; simp [chainSectors]
  | succ m ih =>
    intro s hs hc
    rw [chainSectors]
    have hne : ¬ (s = END_OF_CHAIN) := by unfold END_OF_CHAIN; omega
    rw [if_neg hne]
    cases m with
    | zero => simp [chainSectors, List.range_succ]
    | succ m2 =>
      have hnext : getNextBlock f msg s = s + 1 := by
        have h0 := hc 0 (by omega)
        simpa using h0
      rw [hnext]
      have hc2 : ∀ k : Nat, k + 1 < m2 + 1 →
          getNextBlock f msg ((s + 1) + (k : Int)) = (s + 1) + (k : Int) + 1 := by
        intro k hk
        have e : s + 1 + (k : Int) = s + ((k + 1 : Nat) : Int) := by push_cast; ring
        rw [e]
        exact hc (k + 1) (by omega)
      have hpos1 : (0 : Int) ≤ s + 1 := by omega
      have hih := ih (s + 1) hpos1 hc2
      show s :: chainSectors f msg (m2+1) (s+1)
          = (List.range (m2+1+1)).map (fun (k : Nat) => s + (k : Int))
      rw [hih]
      apply List.ext_getElem
      · simp
      · intro i h1 h2
        rcases i with _ | j
        · simp
        · simp only [List.getElem_cons_succ, List.getElem_map, List.getElem_range]
          push_cast
          ring

/-- A contiguous read splits at any interior point. -/
theorem readBytes_split (f : ByteFile) (off : Int) (a b : Nat) :
    readBytesAt f off (a + b) = readBytesAt f off a ++ readBytesAt f (off + (a : Int)) b := by
  rw [readBytesAt, readBytesAt, readBytesAt, List.range_add, List.map_append, List.map_map]
  congr 1
  apply List.map_congr_left
  intro k hk
  simp only [Function.comp_apply]
  push_cast
  ring_nf

/-- Concatenating n consecutive whole-sector reads is one contiguous read. -/
theorem flatten_contig_reads (f : ByteFile) (off : Int) (B : Nat) :
    ∀ n : Nat, ((List.range n).map
      (fun (k : Nat) => readBytesAt f (off + ((k * B : Nat) : Int)) B)).flatten
      = readBytesAt f off (n * B) := by
  intro n
  induction n with
  | zero => simp [readBytesAt]
  | succ m ih =>
    rw [List.range_succ, List.map_append, List.flatten_append, ih]
    simp only [List.map_cons, List.map_nil, List.flatten_cons, List.flatten_nil,
      List.append_nil]
    rw [show (m + 1) * B = m * B + B from by ring]
    rw [readBytes_split f off (m * B) B]

/-! ## C2 -/

set_option maxRecDepth 40000 in
/-- Counterexample to C2: on a concrete file whose FAT chain from sector 2
is not contiguous (2, 4, 3, 5, 6, 7, 8, 9) and a stream entry of declared
size 4096 (the regular-chain path, more than one 512-byte sector), the
regular-chain extractor's contiguous read differs from following the
allocation chain and concatenating its sectors: the source decodes only
bytes read contiguously from the first sector's offset. -/
theorem c2_regular_chain_counterexample :
    extractDataViaBatBinary f2 msg2 prop2 ≠ specRegularChainRead f2 msg2 prop2 := by
  decide

/-- C2 as amended: the regular-chain path reads the declared number of
bytes contiguously from the start sector's offset and never follows the
allocation chain; this agrees with chain-following concatenation exactly
on files whose chain is contiguous for the sectors the size requires. -/
theorem c2_contiguous_equiv (f : ByteFile) (msg : MsgData) (p : PropEntry)
    (hB : 0 < msg.bigBlockSize) (hs : 0 ≤ p.startBlock)
    (hcontig : ∀ k : Nat,
      k + 1 < (p.sizeBlock.toNat + msg.bigBlockSize.toNat - 1) / msg.bigBlockSize.toNat →
      getNextBlock f msg (p.startBlock + (k : Int)) = p.startBlock + (k : Int) + 1) :
    specRegularChainRead f msg p = extractDataViaBatBinary f msg p := by
  have hBpos : 0 < msg.bigBlockSize.toNat := by omega
  have hcast : ((msg.bigBlockSize.toNat : Nat) : Int) = msg.bigBlockSize :=
    Int.toNat_of_nonneg hB.le
  simp only [specRegularChainRead, extractDataViaBatBinary]
  rw [chainSectors_contig f msg _ p.startBlock hs hcontig]
  rw [List.map_map]
  rw [List.map_congr_left (fun (k : Nat) _ =>
    show ((fun s => readBytesAt f (getBlockOffsetAt msg s) msg.bigBlockSize.toNat) ∘
        (fun (k2 : Nat) => p.startBlock + (k2 : Int))) k
      = readBytesAt f (getBlockOffsetAt msg p.startBlock
          + ((k * msg.bigBlockSize.toNat : Nat) : Int)) msg.bigBlockSize.toNat from by
    simp only [Function.comp_apply, getBlockOffsetAt]
    congr 1
    push_cast [hcast]
    ring)]
  rw [flatten_contig_reads f (getBlockOffsetAt msg p.startBlock) msg.bigBlockSize.toNat]
  have hsize := le_ceil_mul p.sizeBlock.toNat msg.bigBlockSize.toNat hBpos
  rw [readBytesAt, readBytesAt, ← List.map_take, List.take_range, Nat.min_eq_left hsize]

/-- Witness for the amended C2 on the contiguous variant of the same file. -/
theorem c2_contiguous_equiv_witness :
    specRegularChainRead f2c msg2 prop2 = extractDataViaBatBinary f2c msg2 prop2 :=
  c2_contiguous_equiv f2c msg2 prop2 (by decide) (by decide) (by
    intro k hk
    have hb : (prop2.sizeBlock.toNat + msg2.bigBlockSize.toNat - 1)
        / msg2.bigBlockSize.toNat = 8 := by decide
    rw [hb] at hk
    have hk7 : k < 7 := by omega
    interval_cases k <;> decide)

end MsgModel

namespace MsgModel

/-! ## C6 support lemmas -/

/-- Looking up the key just assigned yields the assigned value. -/
theorem bagLookup_set_same (b : Bag) (k : String) (v : FieldValue) :
    bagLookup (bagSetNamed b k v) k = some v := by
  rcases b with ⟨named, atts, recips, inner⟩
  simp only [bagLookup, bagSetNamed, bagNamed]
  induction named with
  | nil => simp [assocSet]
  | cons kv rest ih =>
    rcases kv with ⟨k2, v2⟩
    by_cases hk : k2 = k
    · simp [assocSet, hk]
    · simp [assocSet, hk, List.find?]
      exact ih

/-- Assigning one key leaves every other key's value unchanged. -/
theorem bagLookup_set_other (b : Bag) (k k2 : String) (v : FieldValue) (h : k2 ≠ k) :
    bagLookup (bagSetNamed b k v) k2 = bagLookup b k2 := by
  rcases b with ⟨named, atts, recips, inner⟩
  simp only [bagLookup, bagSetNamed, bagNamed]
  induction named with
  | nil => simp [assocSet, List.find?, Ne.symm h]
  | cons kv rest ih =>
    rcases kv with ⟨k3, v3⟩
    by_cases hk : k3 = k
    · subst hk
      simp [assocSet, List.find?, Ne.symm h]
    · by_cases hk2 : k3 = k2
      · simp [assocSet, hk, List.find?, hk2, h]
      · simp [assocSet, hk, List.find?, hk2, h]
        exact ih

/-- The disambiguation loop keeps the plain name when its slot is not
truthy. -/
theorem freeKey_first (b : Bag) (N : String) (h : truthyKey b N = false) :
    freeKey b N = N := by
  unfold freeKey
  show freeKeyAux b N ((bagNamed b).length + 1 + 1) 1 = N
  rw [freeKeyAux]
  simp [suffixCandidate, h]

/-- The disambiguation loop moves to the -2 suffix when the plain name's
slot is truthy and the suffixed slot is not. -/
theorem freeKey_second (b : Bag) (N : String)
    (h1 : truthyKey b N = true)
    (h2 : truthyKey b (N ++ sDash ++ decRepr 2) = false) :
    freeKey b N = N ++ sDash ++ decRepr 2 := by
  unfold freeKey
  show freeKeyAux b N ((bagNamed b).length + 1 + 1) 1 = N ++ sDash ++ decRepr 2
  rw [freeKeyAux]
  simp only [suffixCandidate, if_pos rfl, h1, if_true]
  rw [freeKeyAux]
  simp [suffixCandidate, h2]

/-- A name never equals itself with the -2 suffix appended. -/
theorem ne_append_dash2 (N : String) : N ≠ N ++ sDash ++ decRepr 2 := by
  intro h
  have hl := congrArg String.length h
  rw [String.length_append, String.length_append] at hl
  have h3 : sDash.length = 1 := by decide
  have h2 : (decRepr 2).length = 1 := by decide
  omega

/-- A -2-suffixed name is never the reserved Body key. -/
theorem dash2_ne_sBody (N : String) : N ++ sDash ++ decRepr 2 ≠ sBody := by
  intro h
  have hd := congrArg (fun s => s.data.reverse) h
  have h2 : (decRepr 2).data = ['2'] := by decide
  have h3 : sDash.data = ['-'] := by decide
  have h4 : sBody.data = ['B', 'o', 'd', 'y'] := by decide
  simp only [String.data_append, h2, h3, h4, List.reverse_append] at hd
  simp at hd

/-! ## C6 -/

/-- Counterexample to C6: two document streams under one storage resolving
to the same canonical name Subject, where the first decodes to the empty
string.  The empty string is falsy, the key-collision test of the suffix
loop treats it as absent, and the second stream is stored under the plain
Subject key: the first value is overwritten and no Subject-2 key exists,
contradicting that no value is ever overwritten or dropped. -/
theorem c6_falsy_overwrite_counterexample :
    bagNamed (fieldsDataDocument mapiSubject gv6 p62
      (fieldsDataDocument mapiSubject gv6 p61 emptyBag))
      = [(sSubject, FieldValue.strV ['B'])] := by
  decide

/-- C6 as amended: when two document streams under one storage resolve to
the same canonical name and the value stored for the first stream is
truthy, the second stream is stored under the name with the -2 suffix and
both values are retained under distinct keys; the disambiguation relies on
JavaScript truthiness, so it is guaranteed only while the earlier stored
values are truthy (a falsy stored value, such as an empty string, is
overwritten). -/
theorem c6_suffix_disambiguation (mapi : String → Option String)
    (gv : PropEntry → StreamType → FieldValue) (p1 p2 : PropEntry) (b0 : Bag) (N : String)
    (hn1 : docResolvedName mapi p1 = N)
    (hn2 : docResolvedName mapi p2 = N)
    (hlen : N.length ≠ 0)
    (hnb : N ≠ sBody)
    (hcl1 : docFieldClass p1 ≠ sAttachDataClass)
    (hcl2 : docFieldClass p2 ≠ sAttachDataClass)
    (h0a : bagLookup b0 N = none)
    (h0b : bagLookup b0 (N ++ sDash ++ decRepr 2) = none)
    (htruthy : truthy (docStoredValue gv p1 N) = true) :
    bagLookup (fieldsDataDocument mapi gv p2 (fieldsDataDocument mapi gv p1 b0)) N
      = some (docStoredValue gv p1 N) ∧
    bagLookup (fieldsDataDocument mapi gv p2 (fieldsDataDocument mapi gv p1 b0))
      (N ++ sDash ++ decRepr 2)
      = some (docStoredValue gv p2 (N ++ sDash ++ decRepr 2)) := by
  have hfree1 : freeKey b0 (docResolvedName mapi p1) = N := by
    rw [hn1]
    exact freeKey_first b0 N (by simp [truthyKey, h0a])
  have hisadd1 : isAddPropertyValue N (typeMapping (docFieldTypeS p1)) = true := by
    simp [isAddPropertyValue, hnb]
  have hb1 : fieldsDataDocument mapi gv p1 b0
      = bagSetNamed b0 N (docStoredValue gv p1 N) := by
    simp only [fieldsDataDocument, hfree1, hisadd1, if_true, hlen, ne_eq,
      not_false_iff, if_neg hcl1]
  set b1 := fieldsDataDocument mapi gv p1 b0 with hb1eq
  have hlk1 : bagLookup b1 N = some (docStoredValue gv p1 N) := by
    rw [hb1]; exact bagLookup_set_same b0 N _
  have hlk2 : bagLookup b1 (N ++ sDash ++ decRepr 2) = none := by
    rw [hb1, bagLookup_set_other b0 N _ _ (Ne.symm (ne_append_dash2 N))]
    exact h0b
  have hfree2 : freeKey b1 (docResolvedName mapi p2)
      = N ++ sDash ++ decRepr 2 := by
    rw [hn2]
    refine freeKey_second _ N ?h1 ?h2
    · simp [truthyKey, hlk1, htruthy]
    · simp [truthyKey, hlk2]
  have hlen2 : (N ++ sDash ++ decRepr 2).length ≠ 0 := by
    rw [String.length_append, String.length_append]
    have h3 : sDash.length = 1 := by decide
    omega
  have hisadd2 : isAddPropertyValue (N ++ sDash ++ decRepr 2)
      (typeMapping (docFieldTypeS p2)) = true := by
    simp [isAddPropertyValue, dash2_ne_sBody N]
  have hb2 : fieldsDataDocument mapi gv p2 b1
      = bagSetNamed b1 (N ++ sDash ++ decRepr 2)
          (docStoredValue gv p2 (N ++ sDash ++ decRepr 2)) := by
    simp only [fieldsDataDocument, hfree2, hisadd2, if_true, hlen2, ne_eq,
      not_false_iff, if_neg hcl2]
  constructor
  · rw [hb2, bagLookup_set_other _ _ _ _ (ne_append_dash2 N), hlk1]
  · rw [hb2]
    exact bagLookup_set_same _ _ _

/-- Witness for the amended C6: two Subject streams whose first value is
the non-empty string A end up under Subject and Subject-2. -/
theorem c6_suffix_disambiguation_witness :
    bagLookup (fieldsDataDocument mapiSubject gvA p62
        (fieldsDataDocument mapiSubject gvA p61 emptyBag)) sSubject
      = some (docStoredValue gvA p61 sSubject) ∧
    bagLookup (fieldsDataDocument mapiSubject gvA p62
        (fieldsDataDocument mapiSubject gvA p61 emptyBag))
        (sSubject ++ sDash ++ decRepr 2)
      = some (docStoredValue gvA p62 (sSubject ++ sDash ++ decRepr 2)) :=
  c6_suffix_disambiguation mapiSubject gvA p61 p62 emptyBag sSubject (by decide) (by decide)
    (by decide) (by decide) (by decide) (by decide) (by decide) (by decide) (by decide)

end MsgModel

namespace MsgModel

/-! ## C8 -/

/-- C8: when the extraction walk classifies a storage whose name starts
with the attachment prefix, the subtree is extracted into a fresh empty
sub-bag that is appended to the attachments list; the containing bag's
named fields, recipient list and nested-message marker are unchanged, so
an attachment subtree never contributes fields to the top-level message
bag, whatever property tags its document streams use. -/
theorem c8_attachment_frame (mapi : String → Option String)
    (gv : PropEntry → StreamType → FieldValue) (props : List (Option PropEntry))
    (cm : HierSt) (f : Nat) (p : PropEntry) (bag result : Bag)
    (hpref : startsWithL p.name.data prefAttachmentS.data = true)
    (hrun : fieldsGo mapi gv props cm (f+1) (FTask.innerT p) bag = some result) :
    bagNamed result = bagNamed bag ∧
    bagRecips result = bagRecips bag ∧
    bagInnerMsg result = bagInnerMsg bag ∧
    ∃ sub, fieldsGo mapi gv props cm f (FTask.dirT p) emptyBag = some sub ∧
      bagAtts result = bagAtts bag ++ [sub] := by
  rw [fieldsGo] at hrun
  rw [if_pos hpref] at hrun
  rcases Option.map_eq_some'.mp hrun with ⟨sub, hsub, heq⟩
  subst heq
  exact ⟨by simp [bagPushAtt, bagNamed], by simp [bagPushAtt, bagRecips],
    by simp [bagPushAtt, bagInnerMsg], sub, hsub, by simp [bagPushAtt, bagAtts]⟩

/-- Witness for C8: an attachment storage whose document stream reuses the
message-scope Subject tag leaves the top-level bag's Subject untouched. -/
theorem c8_attachment_frame_witness :
    bagNamed resultW = bagNamed bagTop ∧
    bagRecips resultW = bagRecips bagTop ∧
    bagInnerMsg resultW = bagInnerMsg bagTop ∧
    ∃ sub, fieldsGo mapiSubject gvA propsW cmW 3 (FTask.dirT pAtt) emptyBag = some sub ∧
      bagAtts resultW = bagAtts bagTop ++ [sub] :=
  c8_attachment_frame mapiSubject gvA propsW cmW 3 pAtt bagTop resultW (by decide) (by rfl)

end MsgModel
